import Mathlib

/-!
Shallow embedding of the inner-mainframe falling-block game core.

The definitions below are transcribed from the repository's TypeScript
sources: the seeded xorshift32 generator (src/src/logic/rng.ts), the shape
table with rotation and normalization (packages/net-protocol/src/index.ts),
the 7-bag generator (the unnamed bag module), the board operations
(packages/game-logic/src/board.ts) and the game state machine
(packages/game-logic/src/logic.ts).

JavaScript numbers that only ever hold integers are modelled as `Int` or
`Nat`; fractional time/score quantities are modelled as `Rat`; JavaScript's
32-bit integer coercions (`| 0`, `^`, `<<`, `>>>`) are modelled explicitly
on the unsigned 32-bit representation with `% 2^32`.
-/

namespace IM

/-! ## 32-bit helpers -/

/-- The unsigned 32-bit representation of a JS number already holding an
integer (`ToUint32`). -/
def toUint32 (z : ℤ) : ℕ := (z.emod 4294967296).toNat

/-- The signed 32-bit integer a given unsigned 32-bit word denotes. -/
def uToInt32 (u : ℕ) : ℤ := if u < 2147483648 then (u : ℤ) else (u : ℤ) - 4294967296

/-- JS `a ^ b`: both operands coerced to int32, bitwise xor, int32 result. -/
def jsXor32 (a b : ℤ) : ℤ := uToInt32 (toUint32 a ^^^ toUint32 b)

/-! ## Deterministic PRNG (src/src/logic/rng.ts) -/

/-- `new RNG(seed)`: a zero seed is replaced by the constant 0x9e3779b9
(`if (seed === 0) this.seed = 0x9e3779b9`). -/
def RNG.new (seed : ℤ) : ℤ := if seed = 0 then 0x9e3779b9 else seed

/-- One xorshift32 step on the unsigned 32-bit representation:
`x ^= x << 13; x ^= x >>> 17; x ^= x << 5`. -/
def xorshift32 (u : ℕ) : ℕ :=
  let a := (u ^^^ (u * 8192)) % 4294967296
  let b := a ^^^ (a / 131072)
  (b ^^^ (b * 32)) % 4294967296

/-- `RNG.next()`: runs xorshift32 on `this.seed | 0`, stores the new state
(`this.seed = x | 0`) and returns `(x >>> 0) / 0xffffffff`. -/
def RNG.next (seed : ℤ) : ℚ × ℤ :=
  let x := xorshift32 (toUint32 seed)
  ((x : ℚ) / 4294967295, uToInt32 x)

/-- The sequence of the first `n` values an RNG instance with stored seed
`seed` returns. -/
def RNG.seq (seed : ℤ) : ℕ → List ℚ
  | 0 => []
  | n + 1 =>
    let r := RNG.next seed
    r.1 :: RNG.seq r.2 n

/-! ## Shape table (packages/net-protocol/src/index.ts) -/

inductive ShapeKey where
  | I | O | T | J | L | S | Z
deriving DecidableEq, Repr

/-- The canonical cell offsets of each piece type (`SHAPES`). -/
def SHAPES : ShapeKey → List (ℤ × ℤ)
  | .I => [(0, 0), (1, 0), (2, 0), (3, 0)]
  | .O => [(0, 0), (1, 0), (0, 1), (1, 1)]
  | .T => [(0, 0), (1, 0), (2, 0), (1, 1)]
  | .L => [(0, 0), (0, 1), (0, 2), (1, 2)]
  | .J => [(1, 0), (1, 1), (1, 2), (0, 2)]
  | .S => [(1, 0), (2, 0), (0, 1), (1, 1)]
  | .Z => [(0, 0), (1, 0), (1, 1), (2, 1)]

/-- JS `((r % 4) + 4) % 4` — `%` is the truncated remainder. -/
def jsMod4 (r : ℤ) : ℤ := (r.tmod 4 + 4).tmod 4

/-- `rotateCells(cells, r)`: rotate by 90° × (`((r % 4) + 4) % 4`) steps. -/
def rotateCells (cells : List (ℤ × ℤ)) (r : ℤ) : List (ℤ × ℤ) :=
  let n := jsMod4 r
  cells.map fun c =>
    if n = 1 then (-c.2, c.1)
    else if n = 2 then (-c.1, -c.2)
    else if n = 3 then (c.2, -c.1)
    else c

/-- The minimum of a list of integers (the JS code folds `min` starting
from `Infinity`; every call site passes a non-empty list). -/
def listMin (l : List ℤ) : ℤ :=
  match l with
  | [] => 0
  | x :: xs => xs.foldl min x

/-- `normalize(cells)`: translate so the minimum x and y become 0. -/
def normalize (cells : List (ℤ × ℤ)) : List (ℤ × ℤ) :=
  let minX := listMin (cells.map Prod.fst)
  let minY := listMin (cells.map Prod.snd)
  cells.map fun c => (c.1 - minX, c.2 - minY)

/-- `shapeCells(type, rot)` (packages/game-logic/src/board.ts):
`normalize(rotateCells(SHAPES[type], rot))`. -/
def shapeCells (type : ShapeKey) (rot : ℤ) : List (ℤ × ℤ) :=
  normalize (rotateCells (SHAPES type) rot)

/-! ## Bag generator (the unnamed bag module, src/unnamed/part_000) -/

/-- `const ALL: ShapeKey[] = ["I","O","T","J","L","S","Z"]`. -/
def ALL : List ShapeKey := [.I, .O, .T, .J, .L, .S, .Z]

/-- Reading `bag[j]`: an out-of-range index yields JS `undefined`,
modelled as `none`. -/
def jsGet (l : List (Option ShapeKey)) (j : ℤ) : Option ShapeKey :=
  if j < 0 then none else l.getD j.toNat none

/-- Writing `bag[j] = v`: an in-range index updates in place; the index
one past the end (the only out-of-range index the shuffle can produce,
since `j = floor(value * (i + 1)) <= i + 1 <= length`) appends. -/
def jsSet (l : List (Option ShapeKey)) (j : ℤ) (v : Option ShapeKey) :
    List (Option ShapeKey) :=
  if j < 0 then l
  else if j.toNat < l.length then l.set j.toNat v
  else l ++ [v]

/-- `[bag[i], bag[j]] = [bag[j], bag[i]]`: the right-hand side is read
first, then `bag[i]` and `bag[j]` are assigned in order. -/
def bagSwap (bag : List (Option ShapeKey)) (i j : ℤ) : List (Option ShapeKey) :=
  let vi := jsGet bag i
  let vj := jsGet bag j
  jsSet (jsSet bag i vj) j vi

/-- `generateBag(rng)`: Fisher–Yates over a copy of `ALL`, with
`j = Math.floor(rng.next() * (i + 1))` for `i` from 6 down to 1.
Returns the bag and the RNG's final stored seed. -/
def generateBag (seed : ℤ) : List (Option ShapeKey) × ℤ :=
  [6, 5, 4, 3, 2, 1].foldl
    (fun st (i : ℤ) =>
      let r := RNG.next st.2
      let j : ℤ := ⌊r.1 * ((i : ℚ) + 1)⌋
      (bagSwap st.1 i j, r.2))
    (ALL.map some, seed)

/-! ## Helper lemmas: rotation and the shape table -/

theorem jsMod4_eq_emod (r : ℤ) : jsMod4 r = r % 4 := by
  unfold jsMod4
  cases r with
  | ofNat m =>
    have h1 : (Int.ofNat m).tmod 4 = ((m % 4 : ℕ) : ℤ) := rfl
    have h2 : m % 4 < 4 := Nat.mod_lt _ (by norm_num)
    rw [h1, Int.tmod_eq_emod (by omega) (by norm_num)]
    simp only [Int.ofNat_eq_coe]
    omega
  | negSucc m =>
    have h1 : (Int.negSucc m).tmod 4 = -(((m + 1) % 4 : ℕ) : ℤ) := rfl
    have h2 : (m + 1) % 4 < 4 := Nat.mod_lt _ (by norm_num)
    rw [h1, Int.tmod_eq_emod (by omega) (by norm_num)]
    have h3 : Int.negSucc m = -((m : ℤ) + 1) := by simp [Int.negSucc_eq]
    omega

theorem jsMod4_emod (r : ℤ) : jsMod4 (r % 4) = jsMod4 r := by
  rw [jsMod4_eq_emod, jsMod4_eq_emod, Int.emod_emod_of_dvd r dvd_rfl]

theorem rotateCells_emod (cells : List (ℤ × ℤ)) (r : ℤ) :
    rotateCells cells (r % 4) = rotateCells cells r := by
  unfold rotateCells
  rw [jsMod4_emod]

theorem shapeCells_emod (t : ShapeKey) (r : ℤ) :
    shapeCells t (r % 4) = shapeCells t r := by
  unfold shapeCells
  rw [rotateCells_emod]

theorem emod4_cases (r : ℤ) : r % 4 = 0 ∨ r % 4 = 1 ∨ r % 4 = 2 ∨ r % 4 = 3 := by
  omega

theorem shapeCells_length (t : ShapeKey) (r : ℤ) : (shapeCells t r).length = 4 := by
  rw [← shapeCells_emod]
  rcases emod4_cases r with h | h | h | h <;> rw [h] <;> cases t <;> decide

theorem shapeCells_snd_nonneg (t : ShapeKey) (r : ℤ) :
    ∀ c ∈ shapeCells t r, 0 ≤ c.2 := by
  rw [← shapeCells_emod]
  rcases emod4_cases r with h | h | h | h <;> rw [h] <;> cases t <;> decide

theorem shapeCells_nodup (t : ShapeKey) (r : ℤ) : (shapeCells t r).Nodup := by
  rw [← shapeCells_emod]
  rcases emod4_cases r with h | h | h | h <;> rw [h] <;> cases t <;> decide

/-! ## Claim theorems: PRNG, bag, shapes -/

/-- C9: for every piece type and every integer rotation count, rotating the
shape cells and normalizing is invariant under the count modulo 4
(`shapeCells t r = shapeCells t (r % 4)`), and always yields exactly a
4-cell footprint (4 distinct cells) for the given pair. -/
theorem c9_rotation_mod4 (t : ShapeKey) (r : ℤ) :
    shapeCells t r = shapeCells t (r % 4) ∧
    (shapeCells t r).length = 4 ∧ (shapeCells t r).Nodup :=
  ⟨(shapeCells_emod t r).symm, shapeCells_length t r, shapeCells_nodup t r⟩

/-- C5: two RNG instances constructed with the same nonzero seed produce
identical output sequences for every number of draws, and seed 0 produces
exactly the sequence of the fallback constant 0x9e3779b9. -/
theorem c5_prng_determinism :
    (∀ s1 s2 : ℤ, s1 = s2 → s1 ≠ 0 →
      ∀ n : ℕ, RNG.seq (RNG.new s1) n = RNG.seq (RNG.new s2) n) ∧
    (∀ n : ℕ, RNG.seq (RNG.new 0) n = RNG.seq (RNG.new 0x9e3779b9) n) := by
  constructor
  · intro s1 s2 h _ n
    rw [h]
  · intro n
    have h : RNG.new 0 = RNG.new 0x9e3779b9 := by norm_num [RNG.new]
    rw [h]

theorem c5_witness :
    RNG.seq (RNG.new 0) 5 = RNG.seq (RNG.new 0x9e3779b9) 5 :=
  c5_prng_determinism.2 5

/-- C8: the claim says every draw lies in [0, 1).  The code divides the
unsigned 32-bit state by 0xffffffff, so from the stored seed 1584200935
(whose xorshift32 image is 0xffffffff) `next` returns exactly 1: the
returned value is not strictly less than 1. -/
theorem c8_code_behavior :
    (RNG.next 1584200935).1 = 1 ∧ ¬ (RNG.next 1584200935).1 < 1 := by
  constructor
  · with_unfolding_all decide
  · with_unfolding_all decide

/-- C4: the claim says every PRNG state yields a length-7 permutation bag.
From the RNG state 1584200935 the first draw is exactly 1, so
`j = Math.floor(1 * 7) = 7` indexes one past the end: the resulting bag has
length 8 and contains an undefined (`none`) entry. -/
theorem c4_code_behavior :
    (generateBag 1584200935).1.length = 8 ∧ none ∈ (generateBag 1584200935).1 := by
  constructor
  · with_unfolding_all decide
  · with_unfolding_all decide

/-! ## Data model (src/src/logic/types.ts, packages/game-logic) -/

structure Piece where
  type : ShapeKey
  x : ℤ
  y : ℤ
  rot : ℤ
deriving DecidableEq, Repr

structure Inputs where
  left : Bool := false
  right : Bool := false
  rotCW : Bool := false
  rotCCW : Bool := false
  softDrop : Bool := false
  hardDrop : Bool := false
  hold : Bool := false
  respawn : Bool := false
deriving DecidableEq, Repr

/-- A board row/grid cell is 0 or 1 in the source; modelled as `Bool`. -/
abbrev Board := List (List Bool)

structure GameState where
  gameOver : Bool
  tick : ℤ
  boardW : ℤ
  boardH : ℤ
  board : Board
  level : ℚ
  lines : ℚ
  score : ℚ
  active : Option Piece
  hold : Option ShapeKey
  canHold : Bool
  next : List ShapeKey
  fallAccum : ℚ
  lockTimerMs : ℚ
  clearingRows : Option (List ℤ)
  dasLeftMs : ℚ
  dasRightMs : ℚ
  arrLeftMs : ℚ
  arrRightMs : ℚ
  seed : ℤ
deriving DecidableEq, Repr

structure GameParams where
  gravityCellsPerSec : ℚ → ℚ
  lockDelayMs : ℚ
  dasMs : ℚ
  arrMs : ℚ
  softDropBonus : ℚ
  lineClearScore : ℚ → ℚ → ℚ
  levelUp : ℚ → ℚ

/-! ## Board operations (packages/game-logic/src/board.ts) -/

/-- `makeBoard(w, h)`: `h` rows of `w` empty cells. -/
def makeBoard (w h : ℤ) : Board :=
  List.replicate h.toNat (List.replicate w.toNat false)

/-- Reading `state.board[gy][gx]` (both indices already checked to be in
range by every caller). -/
def boardGet (b : Board) (y x : ℤ) : Bool :=
  (b.getD y.toNat []).getD x.toNat false

/-- `collides(state, p)`: some occupied cell is out of bounds
(`gx < 0 || gx >= boardW || gy < 0 || gy >= boardH`) or overlaps an
occupied cell (`gy >= 0 && state.board[gy][gx]`). -/
def collides (s : GameState) (p : Piece) : Bool :=
  (shapeCells p.type p.rot).any fun c =>
    let gx := p.x + c.1
    let gy := p.y + c.2
    decide (gx < 0) || decide (s.boardW ≤ gx) || decide (gy < 0) ||
      decide (s.boardH ≤ gy) || (decide (0 ≤ gy) && boardGet s.board gy gx)

/-- `lockToBoard(state, p)`: mark the piece's in-range cells occupied;
returns the updated grid. -/
def lockToBoard (s : GameState) (p : Piece) : Board :=
  (shapeCells p.type p.rot).foldl
    (fun b c =>
      let gx := p.x + c.1
      let gy := p.y + c.2
      if 0 ≤ gy ∧ gy < s.boardH ∧ 0 ≤ gx ∧ gx < s.boardW then
        b.set gy.toNat ((b.getD gy.toNat []).set gx.toNat true)
      else b)
    s.board

/-- One row is full when every column `x < boardW` is occupied. -/
def fullRow (w : ℤ) (row : List Bool) : Bool :=
  (List.range w.toNat).all fun x => row.getD x false

/-- `fullRows(state)`: indices of full rows, ascending. -/
def fullRows (s : GameState) : List ℕ :=
  (List.range s.boardH.toNat).filter fun y => fullRow s.boardW (s.board.getD y [])

/-- One iteration of the `clearRows` loop body:
`state.board.splice(y, 1); state.board.unshift(Array(boardW).fill(0))`. -/
def removeRow (w : ℤ) (b : Board) (y : ℕ) : Board :=
  List.replicate w.toNat false :: b.eraseIdx y

/-- `clearRows(state, rows)`. -/
def clearRows (s : GameState) (rows : List ℕ) : GameState :=
  {s with board := rows.foldl (removeRow s.boardW) s.board}

/-! ## Game state machine (packages/game-logic/src/logic.ts) -/

/-- `tryMove(state, dx, dy)`: move the active piece if the result does not
collide; returns the new state and whether the move happened. -/
def tryMove (s : GameState) (dx dy : ℤ) : GameState × Bool :=
  match s.active with
  | none => (s, false)
  | some a =>
    let n := {a with x := a.x + dx, y := a.y + dy}
    if collides s n then (s, false) else ({s with active := some n}, true)

/-- `tryRotate(state, dir)`: rotate in place if free, otherwise try the
minimal kick list `[1,0], [-1,0], [0,-1], [0,1]` and take the first free
offset; leave the state unchanged if every candidate collides. -/
def tryRotate (s : GameState) (dir : ℤ) : GameState :=
  match s.active with
  | none => s
  | some a =>
    let n := {a with rot := jsMod4 (a.rot + dir)}
    if !collides s n then {s with active := some n}
    else
      match [((1 : ℤ), (0 : ℤ)), (-1, 0), (0, -1), (0, 1)].find?
          (fun k => !collides s {n with x := n.x + k.1, y := n.y + k.2}) with
      | some k => {s with active := some {n with x := n.x + k.1, y := n.y + k.2}}
      | none => s

/-- `grounded(state)`: the piece collides one row further down. -/
def grounded (s : GameState) (p : Piece) : Bool :=
  collides s {p with y := p.y + 1}

/-- If a piece does not collide, its `y` is above `boardH` (every cell is
inside the vertical bounds, and normalized cell offsets are nonnegative).
Used for the termination of the drop loop. -/
theorem collides_false_y_lt {s : GameState} {p : Piece}
    (h : collides s p = false) : p.y < s.boardH := by
  have hlen := shapeCells_length p.type p.rot
  have hne : shapeCells p.type p.rot ≠ [] := by
    intro hn
    rw [hn] at hlen
    simp at hlen
  obtain ⟨c, hc⟩ := List.exists_mem_of_ne_nil _ hne
  have hnn := shapeCells_snd_nonneg p.type p.rot c hc
  have hcell := List.any_eq_false.mp (by simpa only [collides] using h) c hc
  by_contra hcon
  push_neg at hcon
  apply hcell
  have hle : s.boardH ≤ p.y + c.2 := by omega
  simp [decide_eq_true hle]

/-- The hard-drop loop `while (!grounded(state)) { tryMove(state, 0, +1) }`
(the `break` inside is unreachable: `grounded` is exactly the failure
condition of `tryMove(0, +1)`).  Returns the dropped piece and the number
of cells descended. -/
def dropLoop (s : GameState) (p : Piece) : Piece × ℕ :=
  if h : grounded s p then (p, 0)
  else
    let r := dropLoop s {p with y := p.y + 1}
    (r.1, r.2 + 1)
termination_by (s.boardH + 1 - p.y).toNat
decreasing_by
  simp only [grounded, Bool.not_eq_true] at h
  have := collides_false_y_lt h
  simp only [Piece.mk.injEq] at this ⊢
  omega

/-- The gravity loop of `step`: while the accumulator is at least one cell,
move down (resetting the lock timer and counting a soft-drop cell), or —
when grounded — advance the lock timer and either signal the lock (`true`)
or stop.  Only the piece, the accumulator, the lock timer and the soft-drop
cell count are mutated by the source loop; the board is read-only. -/
def gravLoop (s : GameState) (dt : ℚ) (softHeld : Bool) (par : GameParams)
    (p : Piece) (fall lockT : ℚ) (soft : ℕ) : Piece × ℚ × ℚ × ℕ × Bool :=
  if h : 1 ≤ fall then
    if grounded s p then
      let lockT2 := lockT + dt
      if par.lockDelayMs ≤ lockT2 then (p, fall, lockT2, soft, true)
      else (p, fall, lockT2, soft, false)
    else
      gravLoop s dt softHeld par {p with y := p.y + 1} (fall - 1) 0
        (if softHeld then soft + 1 else soft)
  else (p, fall, lockT, soft, false)
termination_by ⌊fall⌋.toNat
decreasing_by
  have h1 : (1 : ℤ) ≤ ⌊fall⌋ := Int.le_floor.mpr (by exact_mod_cast h)
  have h2 : ⌊fall - 1⌋ = ⌊fall⌋ - 1 := by
    simpa using Int.floor_sub_int fall 1
  omega

/-- The auto-repeat loop of `handleDasArr`:
`while (arr >= stepEvery) { if (!tryMove(dx, 0)) break; arr -= stepEvery }`.
Only the piece and the repeat accumulator are mutated. -/
def arrLoop (s : GameState) (dx : ℤ) (stepEvery : ℚ) (hse : 1 ≤ stepEvery)
    (p : Piece) (arr : ℚ) : Piece × ℚ :=
  if h : stepEvery ≤ arr then
    let n := {p with x := p.x + dx}
    if collides s n then (p, arr)
    else arrLoop s dx stepEvery hse n (arr - stepEvery)
  else (p, arr)
termination_by ⌊arr⌋.toNat
decreasing_by
  have h1 : (1 : ℤ) ≤ ⌊arr⌋ := Int.le_floor.mpr (by exact_mod_cast le_trans hse h)
  have h2 : ⌊arr - stepEvery⌋ ≤ ⌊arr - 1⌋ := by
    apply Int.floor_le_floor
    linarith
  have h3 : ⌊arr - 1⌋ = ⌊arr⌋ - 1 := by
    simpa using Int.floor_sub_int arr 1
  omega

/-- `handleDasArr(state, inputs, dtMs, params)`. -/
def handleDasArr (s : GameState) (i : Inputs) (dt : ℚ) (par : GameParams) : GameState :=
  match s.active with
  | none => s
  | some p =>
    if i.left && !i.right then
      let s1 :=
        if s.dasLeftMs = 0 then
          let m := tryMove s (-1) 0
          {m.1 with dasLeftMs := 1, arrLeftMs := 0}
        else
          let das2 := s.dasLeftMs + dt
          if par.dasMs ≤ das2 then
            let r := arrLoop s (-1) (max 1 par.arrMs) (le_max_left 1 par.arrMs)
              p (s.arrLeftMs + dt)
            {s with dasLeftMs := das2, active := some r.1, arrLeftMs := r.2}
          else {s with dasLeftMs := das2}
      {s1 with dasRightMs := 0, arrRightMs := 0}
    else if i.right && !i.left then
      let s1 :=
        if s.dasRightMs = 0 then
          let m := tryMove s 1 0
          {m.1 with dasRightMs := 1, arrRightMs := 0}
        else
          let das2 := s.dasRightMs + dt
          if par.dasMs ≤ das2 then
            let r := arrLoop s 1 (max 1 par.arrMs) (le_max_left 1 par.arrMs)
              p (s.arrRightMs + dt)
            {s with dasRightMs := das2, active := some r.1, arrRightMs := r.2}
          else {s with dasRightMs := das2}
      {s1 with dasLeftMs := 0, arrLeftMs := 0}
    else
      {s with dasLeftMs := 0, arrLeftMs := 0, dasRightMs := 0, arrRightMs := 0}

/-- `pieceWidth(p)`: rightmost occupied column plus one. -/
def pieceWidth (p : Piece) : ℤ :=
  (shapeCells p.type p.rot).foldl (fun m c => max m c.1) 0 + 1

/-- `spawnOffsetTop(p)`: how many rows extend above 0 — the source returns 0. -/
def spawnOffsetTop (_p : Piece) : ℤ := 0

/-- `ensureNext(state)`: top up the queue with a fresh 7-bag when it holds
fewer than 7 pieces.  `state.seed ^= 0x9e3779b9` mutates the stored seed,
and the bag is drawn from `new RNG(state.seed)`.  The queue holds the bag's
present entries (a missing entry, possible only through the out-of-range
swap in `generateBag`, has no game-level counterpart: the original crashes
on it when the piece is later spawned). -/
def ensureNext (s : GameState) : GameState :=
  if s.next.length < 7 then
    let seed2 := jsXor32 s.seed 0x9e3779b9
    {s with seed := seed2, next := s.next ++ (generateBag (RNG.new seed2)).1.reduceOption}
  else s

/-- `spawnNext(state)`: shift the next type off the queue, centre it
horizontally (`Math.floor((boardW - width) / 2)`), spawn at the top, and
either activate it or set `gameOver` when the spawn position collides. -/
def spawnNext (s0 : GameState) : GameState :=
  let s := ensureNext s0
  match s.next with
  | [] => s
  | t :: rest =>
    let p0 : Piece := ⟨t, 0, 0, 0⟩
    let p1 := {p0 with x := Int.fdiv (s.boardW - pieceWidth p0) 2, y := -spawnOffsetTop p0}
    let s1 := {s with next := rest}
    if collides s1 p1 then {s1 with active := none, gameOver := true}
    else {s1 with active := some p1, lockTimerMs := 0, canHold := true}

/-- `lockAndClear(state, params)`: write the piece into the board; if a
locked cell lies above the top, end the game at once (the board keeps the
cells already written); otherwise clear full rows, update lines, score and
level, and spawn the next piece. -/
def lockAndClear (s : GameState) (par : GameParams) : GameState :=
  match s.active with
  | none => s
  | some p =>
    let cells := shapeCells p.type p.rot
    let s1 := {s with board := lockToBoard s p}
    if cells.any (fun c => decide (p.y + c.2 < 0)) then
      {s1 with active := none, gameOver := true}
    else
      let s2 := {s1 with active := none}
      let rows := fullRows s2
      if rows.isEmpty then spawnNext s2
      else
        let s3 := clearRows s2 rows
        let s4 := {s3 with lines := s3.lines + rows.length}
        let s5 := {s4 with score := s4.score + par.lineClearScore (rows.length) s4.level}
        let s6 := {s5 with level := par.levelUp s5.lines}
        spawnNext s6

/-- The tail of `step` after rotations and DAS/ARR: either the hard-drop
path (drop, award 2 points per cell, lock, return) or gravity with
optional soft drop, lock delay handling, soft-drop scoring and the
respawn intent. -/
def stepCore (sd : GameState) (i : Inputs) (dt : ℚ) (par : GameParams) : GameState :=
  match i.hardDrop, sd.active with
  | true, some p =>
    let r := dropLoop sd p
    let se := {sd with active := some r.1}
    let sf := if 0 < r.2 then {se with score := se.score + 2 * (r.2 : ℚ)} else se
    lockAndClear sf par
  | _, _ =>
    let g := par.gravityCellsPerSec sd.level + (if i.softDrop then par.softDropBonus else 0)
    let se := {sd with fallAccum := sd.fallAccum + g * dt / 1000}
    match se.active with
    | some p =>
      let r := gravLoop se dt i.softDrop par p se.fallAccum se.lockTimerMs 0
      if r.2.2.2.2 then
        let sf := lockAndClear
          {se with active := some r.1, fallAccum := r.2.1, lockTimerMs := r.2.2.1} par
        {sf with fallAccum := 0}
      else
        let sf := {se with active := some r.1, fallAccum := r.2.1, lockTimerMs := r.2.2.1}
        let sg := if 0 < r.2.2.2.1 then {sf with score := sf.score + (r.2.2.2.1 : ℚ)} else sf
        if i.respawn then spawnNext sg else sg
    | none =>
      if i.respawn then spawnNext se else se

/-- `step(state, inputs, dtMs, params)`: one invocation of the state
machine — tick, one-shot rotations, DAS/ARR, then `stepCore`. -/
def step (s0 : GameState) (i : Inputs) (dt : ℚ) (par : GameParams) : GameState :=
  let sa := {s0 with tick := s0.tick + 1}
  let sb := if i.rotCW then tryRotate sa 1 else sa
  let sc := if i.rotCCW then tryRotate sb (-1) else sb
  stepCore (handleDasArr sc i dt par) i dt par

def HIDDEN_ROWS : ℤ := 1

/-- `refillNext(state)`: constructs a local RNG, advances and discards it —
no observable effect on the state. -/
def refillNext (s : GameState) : GameState := s

/-- `createGame(boardW, boardH, seed)` (the hidden-row variant). -/
def createGame (boardW boardH seed : ℤ) : GameState :=
  let totalH := boardH + HIDDEN_ROWS
  let st : GameState :=
    { gameOver := false, tick := 0, boardW := boardW, boardH := totalH,
      board := makeBoard boardW totalH, level := 0, lines := 0, score := 0,
      active := none, hold := none, canHold := true, next := [],
      fallAccum := 0, lockTimerMs := 0, clearingRows := none,
      dasLeftMs := 0, dasRightMs := 0, arrLeftMs := 0, arrRightMs := 0, seed := seed }
  spawnNext (refillNext st)

/-! ## Claim C2: collision semantics at negative rows -/

def c2State : GameState :=
  { gameOver := false, tick := 0, boardW := 4, boardH := 4, board := makeBoard 4 4,
    level := 0, lines := 0, score := 0, active := none, hold := none, canHold := true,
    next := [], fallAccum := 0, lockTimerMs := 0, clearingRows := none,
    dasLeftMs := 0, dasRightMs := 0, arrLeftMs := 0, arrRightMs := 0, seed := 1 }

def c2Piece : Piece := ⟨.I, 0, -1, 0⟩

/-- C2: the claim (and the spec) say a piece whose negative-row cells stay
inside the horizontal bounds does not collide on an otherwise free board —
negative rows are supposed to be exempt from the occupancy check.  On an
empty 4×4 board, the I piece at `x = 0, y = -1` has all four cells at row
-1 and columns 0..3 (inside `[0, boardW)`), yet `collides` returns `true`:
the bounds check `gy < 0` rejects every negative-row cell, which also makes
the `gy >= 0 &&` guard of the occupancy check and the negative-row top-out
branch of `lockAndClear` unreachable. -/
theorem c2_code_behavior :
    (∀ c ∈ shapeCells c2Piece.type c2Piece.rot,
        0 ≤ c2Piece.x + c.1 ∧ c2Piece.x + c.1 < c2State.boardW ∧ c2Piece.y + c.2 < 0) ∧
    collides c2State c2Piece = true := by
  constructor
  · decide
  · decide

/-! ## Claim C6: row clearing -/

/-- The `clearRows` fold over a list of row indices, abstracted over the
element type: each step erases index `y` and prepends the empty row `e`. -/
def clearFold (e : α) (b : List α) (ys : List ℕ) : List α :=
  ys.foldl (fun b y => e :: b.eraseIdx y) b

theorem clearRows_eq_clearFold (s : GameState) (rows : List ℕ) :
    (clearRows s rows).board =
      clearFold (List.replicate s.boardW.toNat false) s.board rows := rfl

/-- The ascending indices at which a predicate holds. -/
def idxsP (P : α → Bool) : List α → List ℕ
  | [] => []
  | r :: t => (if P r then [0] else []) ++ (idxsP P t).map (· + 1)

theorem idxsP_lt (P : α → Bool) (b : List α) : ∀ y ∈ idxsP P b, y < b.length := by
  induction b with
  | nil => simp [idxsP]
  | cons r t ih =>
    intro y hy
    simp only [idxsP, List.mem_append, List.mem_map] at hy
    rcases hy with hy | ⟨z, hz, rfl⟩
    · rcases Bool.eq_false_or_eq_true (P r) with h | h <;> simp [h] at hy
      simp only [List.length_cons]
      omega
    · have := ih z hz
      simp only [List.length_cons]
      omega

theorem idxsP_pairwise (P : α → Bool) (b : List α) :
    (idxsP P b).Pairwise (· < ·) := by
  induction b with
  | nil => simp [idxsP]
  | cons r t ih =>
    simp only [idxsP]
    rw [List.pairwise_append]
    refine ⟨?_, List.Pairwise.map _ (fun a b h => by omega) ih, ?_⟩
    · rcases Bool.eq_false_or_eq_true (P r) with h | h <;> simp [h]
    · intro x hx z hz
      rcases Bool.eq_false_or_eq_true (P r) with h | h <;> simp [h] at hx
      simp only [List.mem_map] at hz
      rcases hz with ⟨w, hw, rfl⟩
      omega

theorem range_filter_eq_idxsP (P : α → Bool) (d : α) (b : List α) :
    (List.range b.length).filter (fun y => P (b.getD y d)) = idxsP P b := by
  induction b with
  | nil => simp [idxsP]
  | cons r t ih =>
    simp only [List.length_cons, List.range_succ_eq_map, idxsP]
    rw [List.filter_cons, List.filter_map]
    have h1 : ((fun y => P ((r :: t).getD y d)) ∘ Nat.succ) = fun y => P (t.getD y d) := by
      funext y
      simp [Function.comp, List.getD_cons_succ]
    rw [h1, ih]
    have h2 : List.map Nat.succ (idxsP P t) = List.map (· + 1) (idxsP P t) := by
      simp [Nat.succ_eq_add_one]
    rcases Bool.eq_false_or_eq_true (P r) with h | h <;>
      simp [h, List.getD_cons_zero, h2]

theorem insertIdx_eraseIdx_comm (a : α) :
    ∀ (i : ℕ) (B : List α) (y : ℕ), i ≤ y → y < B.length →
      (B.insertIdx i a).eraseIdx (y + 1) = (B.eraseIdx y).insertIdx i a := by
  intro i
  induction i with
  | zero =>
    intro B y _ _
    simp [List.eraseIdx_cons_succ]
  | succ i ih =>
    intro B y h1 h2
    match y, h1 with
    | y0 + 1, _ =>
      match B with
      | [] => simp at h2
      | c :: B0 =>
        rw [List.insertIdx_succ_cons, List.eraseIdx_cons_succ,
          List.eraseIdx_cons_succ,
          ih B0 y0 (by omega) (by simpa using h2), List.insertIdx_succ_cons]

theorem clearFold_insertIdx (e a : α) :
    ∀ (ys : List ℕ) (B : List α) (i : ℕ), ys.Pairwise (· < ·) →
      (∀ y ∈ ys, i ≤ y ∧ y < B.length) →
      clearFold e (B.insertIdx i a) (ys.map (· + 1)) =
        (clearFold e B ys).insertIdx (i + ys.length) a := by
  intro ys
  induction ys with
  | nil => intro B i _ _; simp [clearFold]
  | cons y ys ih =>
    intro B i hp hb
    have hy := hb y (by simp)
    simp only [List.map_cons, clearFold, List.foldl_cons]
    rw [insertIdx_eraseIdx_comm a i B y hy.1 hy.2]
    have h3 : e :: (B.eraseIdx y).insertIdx i a = (e :: B.eraseIdx y).insertIdx (i + 1) a := by
      rw [List.insertIdx_succ_cons]
    rw [h3]
    have hlen : (e :: B.eraseIdx y).length = B.length := by
      simp only [List.length_cons, List.length_eraseIdx, if_pos hy.2]
      omega
    have hrec := ih (e :: B.eraseIdx y) (i + 1)
      (List.pairwise_cons.mp hp).2
      (by
        intro z hz
        have hlt := (List.pairwise_cons.mp hp).1 z hz
        have hz2 := hb z (by simp [hz])
        constructor
        · omega
        · rw [hlen]; exact hz2.2)
    simp only [clearFold, List.foldl_cons] at hrec ⊢
    rw [hrec]
    congr 1
    simp only [List.length_cons]
    omega

theorem insertIdx_replicate_append (e v : α) :
    ∀ (k : ℕ) (l : List α),
      (List.replicate k e ++ l).insertIdx k v = List.replicate k e ++ v :: l := by
  intro k
  induction k with
  | zero => intro l; simp
  | succ k ih =>
    intro l
    rw [List.replicate_succ, List.cons_append, List.insertIdx_succ_cons, ih]
    simp

theorem idxsP_length_add (P : α → Bool) (b : List α) :
    (idxsP P b).length + (b.filter fun r => !P r).length = b.length := by
  induction b with
  | nil => simp [idxsP]
  | cons r t ih =>
    rcases Bool.eq_false_or_eq_true (P r) with h | h <;>
      simp [idxsP, h, List.filter_cons] <;> omega

/-- The heart of C6: folding the splice-and-unshift step over exactly the
indices at which `P` holds replaces those rows by fresh copies of `e` at
the top and keeps every other row, in order. -/
theorem clearFold_idxsP (e : α) (P : α → Bool) (b : List α) :
    clearFold e b (idxsP P b) =
      List.replicate (idxsP P b).length e ++ (b.filter fun r => !P r) := by
  induction b with
  | nil => simp [idxsP, clearFold]
  | cons r t ih =>
    have hcond := fun y hy => And.intro (Nat.zero_le y) (idxsP_lt P t y hy)
    rcases Bool.eq_false_or_eq_true (P r) with h | h
    · have hidx : idxsP P (r :: t) = 0 :: (idxsP P t).map (· + 1) := by
        simp [idxsP, h]
      rw [hidx]
      simp only [clearFold, List.foldl_cons, List.eraseIdx_cons_zero]
      have h0 : (e :: t) = t.insertIdx 0 e := rfl
      rw [h0]
      have hins := clearFold_insertIdx e e (idxsP P t) t 0 (idxsP_pairwise P t) hcond
      simp only [clearFold] at hins ih ⊢
      rw [hins, ih, Nat.zero_add, insertIdx_replicate_append]
      have hrep : List.replicate ((idxsP P t).length + 1) e =
          List.replicate (idxsP P t).length e ++ [e] := List.replicate_succ' _ _
      simp [List.filter_cons, h, hrep, List.length_map]
    · have hidx : idxsP P (r :: t) = (idxsP P t).map (· + 1) := by
        simp [idxsP, h]
      have h0 : (r :: t) = t.insertIdx 0 r := rfl
      rw [hidx, h0, clearFold_insertIdx e r (idxsP P t) t 0 (idxsP_pairwise P t) hcond,
        ih, Nat.zero_add, insertIdx_replicate_append]
      simp [List.filter_cons, h, List.length_map]

/-- C6: clearing exactly the full rows preserves the row count, the cleared
rows reappear as fresh empty rows at the top, and no full row is missed:
the result is the `k` empty rows followed by precisely the non-full rows of
the original board in order. -/
theorem c6_clear_rows (s : GameState) (h : s.boardH = (s.board.length : ℤ)) :
    (clearRows s (fullRows s)).board.length = s.board.length ∧
    (clearRows s (fullRows s)).board =
      List.replicate (fullRows s).length (List.replicate s.boardW.toNat false) ++
        (s.board.filter fun r => !fullRow s.boardW r) := by
  have hh : s.boardH.toNat = s.board.length := by omega
  have hfull : fullRows s = idxsP (fullRow s.boardW) s.board := by
    rw [fullRows, hh, range_filter_eq_idxsP]
  have hmain := clearFold_idxsP (List.replicate s.boardW.toNat false)
    (fullRow s.boardW) s.board
  constructor
  · rw [clearRows_eq_clearFold, hfull, hmain]
    simp only [List.length_append, List.length_replicate]
    exact idxsP_length_add (fullRow s.boardW) s.board
  · rw [clearRows_eq_clearFold, hfull, hmain]

def c6WState : GameState :=
  { gameOver := false, tick := 0, boardW := 2, boardH := 3,
    board := [[true, true], [false, true], [true, true]],
    level := 0, lines := 0, score := 0, active := none, hold := none, canHold := true,
    next := [], fallAccum := 0, lockTimerMs := 0, clearingRows := none,
    dasLeftMs := 0, dasRightMs := 0, arrLeftMs := 0, arrRightMs := 0, seed := 1 }

theorem c6_witness :
    (clearRows c6WState (fullRows c6WState)).board.length = c6WState.board.length ∧
    (clearRows c6WState (fullRows c6WState)).board =
      List.replicate (fullRows c6WState).length (List.replicate c6WState.boardW.toNat false) ++
        (c6WState.board.filter fun r => !fullRow c6WState.boardW r) :=
  c6_clear_rows c6WState (by decide)

/-! ## Shared concrete test fixtures -/

/-- Concrete parameters used by the concrete-input theorems: zero gravity
isolates input handling from gravity. -/
def par0 : GameParams :=
  { gravityCellsPerSec := fun _ => 0, lockDelayMs := 500, dasMs := 160, arrMs := 30,
    softDropBonus := 15, lineClearScore := fun l lv => l * 100 * (lv + 1),
    levelUp := fun t => t / 5 }

def noInputs : Inputs := {}

/-! ## Claim C10: the hold input is never consulted -/

/-- C10: `step` never reads `inputs.hold`; flipping it cannot change the
resulting state, whatever the rest of the state and inputs are. -/
theorem c10_hold_independent (s : GameState) (i : Inputs) (dt : ℚ)
    (par : GameParams) (b1 b2 : Bool) :
    step s {i with hold := b1} dt par = step s {i with hold := b2} dt par := by
  cases i
  rfl

/-! ## Preservation lemmas for the state machine -/

theorem tryMove_fst_gameOver (s : GameState) (dx dy : ℤ) :
    (tryMove s dx dy).1.gameOver = s.gameOver := by
  unfold tryMove
  dsimp only
  repeat' split
  all_goals rfl

theorem tryMove_fst_lockTimer (s : GameState) (dx dy : ℤ) :
    (tryMove s dx dy).1.lockTimerMs = s.lockTimerMs := by
  unfold tryMove
  dsimp only
  repeat' split
  all_goals rfl

theorem tryRotate_gameOver (s : GameState) (d : ℤ) :
    (tryRotate s d).gameOver = s.gameOver := by
  unfold tryRotate
  dsimp only
  repeat' split
  all_goals rfl

theorem handleDasArr_gameOver (s : GameState) (i : Inputs) (dt : ℚ) (par : GameParams) :
    (handleDasArr s i dt par).gameOver = s.gameOver := by
  unfold handleDasArr
  dsimp only
  repeat' split
  all_goals simp [tryMove_fst_gameOver]

theorem handleDasArr_lockTimer (s : GameState) (i : Inputs) (dt : ℚ) (par : GameParams) :
    (handleDasArr s i dt par).lockTimerMs = s.lockTimerMs := by
  unfold handleDasArr
  dsimp only
  repeat' split
  all_goals simp [tryMove_fst_lockTimer]

theorem ensureNext_gameOver (s : GameState) : (ensureNext s).gameOver = s.gameOver := by
  unfold ensureNext
  dsimp only
  split
  all_goals rfl

theorem spawnNext_gameOver_true (s : GameState) (h : s.gameOver = true) :
    (spawnNext s).gameOver = true := by
  unfold spawnNext
  dsimp only
  repeat' split
  all_goals simp [ensureNext_gameOver, h]

theorem clearRows_gameOver (s : GameState) (rows : List ℕ) :
    (clearRows s rows).gameOver = s.gameOver := rfl

theorem lockAndClear_gameOver_true (s : GameState) (par : GameParams)
    (h : s.gameOver = true) : (lockAndClear s par).gameOver = true := by
  unfold lockAndClear
  dsimp only
  repeat' split
  all_goals
    first
    | exact h
    | rfl
    | exact spawnNext_gameOver_true _ (by simp [clearRows_gameOver, h])

theorem tryRotate_active_none (s : GameState) (d : ℤ) (h : s.active = none) :
    tryRotate s d = s := by
  unfold tryRotate
  rw [h]

theorem handleDasArr_active_none (s : GameState) (i : Inputs) (dt : ℚ)
    (par : GameParams) (h : s.active = none) : handleDasArr s i dt par = s := by
  unfold handleDasArr
  rw [h]

/-! ## Claim C1: behaviour after game over -/

/-- `stepCore` never resets `gameOver`. -/
theorem stepCore_gameOver_mono (sd : GameState) (i : Inputs) (dt : ℚ)
    (par : GameParams) (h : sd.gameOver = true) :
    (stepCore sd i dt par).gameOver = true := by
  unfold stepCore
  dsimp only
  repeat' split
  all_goals try dsimp only
  all_goals
    first
    | exact h
    | exact lockAndClear_gameOver_true _ _ (by simp [h])
    | exact spawnNext_gameOver_true _ (by simp [h])

/-- `step` never resets `gameOver`: it stays `true` through every branch. -/
theorem step_gameOver_mono (s : GameState) (i : Inputs) (dt : ℚ)
    (par : GameParams) (h : s.gameOver = true) : (step s i dt par).gameOver = true := by
  unfold step
  dsimp only
  apply stepCore_gameOver_mono
  rw [handleDasArr_gameOver]
  split
  · rw [tryRotate_gameOver]
    split
    · rw [tryRotate_gameOver]
      exact h
    · exact h
  · split
    · rw [tryRotate_gameOver]
      exact h
    · exact h

/-- With no active piece and no respawn intent, the tail of `step` only
accumulates gravity into the fractional counter. -/
theorem stepCore_frozen (sd : GameState) (i : Inputs) (dt : ℚ) (par : GameParams)
    (hA : sd.active = none) (hR : i.respawn = false) :
    stepCore sd i dt par =
      {sd with fallAccum := sd.fallAccum +
        (par.gravityCellsPerSec sd.level +
          (if i.softDrop then par.softDropBonus else 0)) * dt / 1000} := by
  unfold stepCore
  cases hHD : i.hardDrop <;> simp only [hA, hR] <;> rfl

def c1CexState : GameState :=
  { gameOver := true, tick := 0, boardW := 10, boardH := 21, board := makeBoard 10 21,
    level := 0, lines := 0, score := 0, active := none, hold := none, canHold := true,
    next := [], fallAccum := 0, lockTimerMs := 0, clearingRows := none,
    dasLeftMs := 0, dasRightMs := 0, arrLeftMs := 0, arrRightMs := 0, seed := 1 }

def c1CexInputs : Inputs := { respawn := true }

/-- C1 counterexample: in a game-over state (empty queue, empty board,
no active piece) a `step` carrying the `respawn` intent spawns a fresh
active piece — the active-piece field changes even though `gameOver` is
`true`, contradicting the claim that every `step` after game over leaves
board, score and active piece unchanged. -/
theorem c1_counterexample :
    c1CexState.gameOver = true ∧ c1CexState.active = none ∧
    (step c1CexState c1CexInputs 16 par0).active ≠ none ∧
    (step c1CexState c1CexInputs 16 par0).gameOver = true := by
  refine ⟨rfl, rfl, ?_, ?_⟩
  · with_unfolding_all decide
  · with_unfolding_all decide

/-- C1 as amended: once `gameOver` is set (and the active piece is
accordingly absent), any `step` whose inputs do not carry the `respawn`
intent leaves board, score and active piece unchanged; and no `step` ever
clears `gameOver` — only a freshly created game starts with it unset. -/
theorem c1_amended_freeze :
    (∀ (s : GameState) (i : Inputs) (dt : ℚ) (par : GameParams),
      s.gameOver = true → (step s i dt par).gameOver = true) ∧
    (∀ (s : GameState) (i : Inputs) (dt : ℚ) (par : GameParams),
      s.gameOver = true → s.active = none → i.respawn = false →
        (step s i dt par).board = s.board ∧ (step s i dt par).score = s.score ∧
        (step s i dt par).active = none) := by
  constructor
  · exact step_gameOver_mono
  · intro s i dt par _ hA hR
    have h1 : (if i.rotCW = true then tryRotate {s with tick := s.tick + 1} 1
        else {s with tick := s.tick + 1}) = {s with tick := s.tick + 1} := by
      split
      · exact tryRotate_active_none _ _ hA
      · rfl
    have h2 : (if i.rotCCW = true then tryRotate {s with tick := s.tick + 1} (-1)
        else {s with tick := s.tick + 1}) = {s with tick := s.tick + 1} := by
      split
      · exact tryRotate_active_none _ _ hA
      · rfl
    have hstep : step s i dt par = stepCore {s with tick := s.tick + 1} i dt par := by
      unfold step
      dsimp only
      rw [h1, h2, handleDasArr_active_none {s with tick := s.tick + 1} i dt par hA]
    rw [hstep, stepCore_frozen {s with tick := s.tick + 1} i dt par hA hR]
    exact ⟨rfl, rfl, hA⟩

theorem c1_witness :
    (step c1CexState noInputs 16 par0).gameOver = true ∧
    (step c1CexState noInputs 16 par0).board = c1CexState.board ∧
    (step c1CexState noInputs 16 par0).score = c1CexState.score ∧
    (step c1CexState noInputs 16 par0).active = none := by
  have h1 := c1_amended_freeze.1 c1CexState noInputs 16 par0 rfl
  have h2 := c1_amended_freeze.2 c1CexState noInputs 16 par0 rfl rfl rfl
  exact ⟨h1, h2.1, h2.2.1, h2.2.2⟩

/-! ## Claim C3: lock-delay behaviour -/

def c3CexPiece : Piece := ⟨.O, 1, 0, 0⟩

def c3CexState : GameState :=
  { gameOver := false, tick := 0, boardW := 3, boardH := 2, board := makeBoard 3 2,
    level := 0, lines := 0, score := 0, active := some c3CexPiece, hold := none,
    canHold := true, next := [], fallAccum := 0, lockTimerMs := 100, clearingRows := none,
    dasLeftMs := 0, dasRightMs := 0, arrLeftMs := 0, arrRightMs := 0, seed := 1 }

def c3CexInputs : Inputs := { left := true }

/-- C3 counterexample: the grounded O piece (lock timer already at 100 ms)
moves left successfully during `step` and remains grounded, yet the lock
timer is still 100 ms afterwards — a successful leftward move while
grounded does not reset the lock-delay timer to 0. -/
theorem c3_counterexample :
    grounded c3CexState c3CexPiece = true ∧
    (step c3CexState c3CexInputs 50 par0).active = some {c3CexPiece with x := 0} ∧
    grounded c3CexState {c3CexPiece with x := 0} = true ∧
    (step c3CexState c3CexInputs 50 par0).lockTimerMs = 100 := by
  refine ⟨by decide, ?_, by decide, ?_⟩
  · with_unfolding_all decide
  · with_unfolding_all decide

/-- C3 as amended: horizontal (DAS/ARR) processing never touches the
lock-delay timer; within the gravity loop, a grounded piece accumulates
`elapsedMs` onto the timer each invocation (once the accumulator has
reached one cell), locking on the invocation where it reaches
`lockDelayMs`; and only a successful downward move resets the timer to 0
(in the loop's continuation). -/
theorem c3_amended_lock_delay :
    (∀ (s : GameState) (i : Inputs) (dt : ℚ) (par : GameParams),
      (handleDasArr s i dt par).lockTimerMs = s.lockTimerMs) ∧
    (∀ (s : GameState) (dt : ℚ) (sd : Bool) (par : GameParams) (p : Piece)
        (fall lockT : ℚ) (soft : ℕ), 1 ≤ fall → grounded s p = true →
      par.lockDelayMs ≤ lockT + dt →
      gravLoop s dt sd par p fall lockT soft = (p, fall, lockT + dt, soft, true)) ∧
    (∀ (s : GameState) (dt : ℚ) (sd : Bool) (par : GameParams) (p : Piece)
        (fall lockT : ℚ) (soft : ℕ), 1 ≤ fall → grounded s p = true →
      lockT + dt < par.lockDelayMs →
      gravLoop s dt sd par p fall lockT soft = (p, fall, lockT + dt, soft, false)) ∧
    (∀ (s : GameState) (dt : ℚ) (sd : Bool) (par : GameParams) (p : Piece)
        (fall lockT : ℚ) (soft : ℕ), 1 ≤ fall → grounded s p = false →
      gravLoop s dt sd par p fall lockT soft =
        gravLoop s dt sd par {p with y := p.y + 1} (fall - 1) 0
          (if sd then soft + 1 else soft)) := by
  refine ⟨handleDasArr_lockTimer, ?_, ?_, ?_⟩
  · intro s dt sd par p fall lockT soft hf hg hld
    rw [gravLoop.eq_def, dif_pos hf]
    dsimp only
    rw [if_pos hg, if_pos hld]
  · intro s dt sd par p fall lockT soft hf hg hld
    rw [gravLoop.eq_def, dif_pos hf]
    dsimp only
    rw [if_pos hg, if_neg (not_le.mpr hld)]
  · intro s dt sd par p fall lockT soft hf hg
    rw [gravLoop.eq_def, dif_pos hf]
    dsimp only
    rw [if_neg (by simp [hg])]

theorem c3_witness :
    (handleDasArr c3CexState c3CexInputs 50 par0).lockTimerMs = c3CexState.lockTimerMs ∧
    gravLoop c3CexState 50 false par0 c3CexPiece 2 450 0 = (c3CexPiece, 2, 500, 0, true) := by
  constructor
  · exact c3_amended_lock_delay.1 c3CexState c3CexInputs 50 par0
  · have h := c3_amended_lock_delay.2.1 c3CexState 50 false par0 c3CexPiece 2 450 0
      (by norm_num) (by decide) (by norm_num [par0])
    rw [h]
    norm_num

/-! ## Claim C7: hard drop -/

theorem ensureNext_fallAccum (s : GameState) : (ensureNext s).fallAccum = s.fallAccum := by
  unfold ensureNext
  dsimp only
  split
  all_goals rfl

theorem spawnNext_fallAccum (s : GameState) : (spawnNext s).fallAccum = s.fallAccum := by
  unfold spawnNext
  dsimp only
  repeat' split
  all_goals simp [ensureNext_fallAccum]

theorem clearRows_fallAccum (s : GameState) (rows : List ℕ) :
    (clearRows s rows).fallAccum = s.fallAccum := rfl

theorem lockAndClear_fallAccum (s : GameState) (par : GameParams) :
    (lockAndClear s par).fallAccum = s.fallAccum := by
  unfold lockAndClear
  dsimp only
  repeat' split
  all_goals simp [spawnNext_fallAccum, clearRows_fallAccum]

/-- The effect of `handleDasArr` when neither direction is held: the four
DAS/ARR timers are reset. -/
def dasReset (s : GameState) : GameState :=
  {s with dasLeftMs := 0, arrLeftMs := 0, dasRightMs := 0, arrRightMs := 0}

/-- With an active piece and neither direction held, DAS/ARR processing
only resets the four direction timers. -/
theorem handleDasArr_reset (s : GameState) (i : Inputs) (dt : ℚ) (par : GameParams)
    (p : Piece) (hL : i.left = false) (hR2 : i.right = false) (hA : s.active = some p) :
    handleDasArr s i dt par = dasReset s := by
  unfold handleDasArr dasReset
  rw [hA]
  simp [hL, hR2]

/-- The hard-drop loop descends to the first grounded position: if the
piece is grounded `d` cells lower and at no earlier offset, `dropLoop`
returns that position together with the descent count `d`. -/
theorem dropLoop_spec (s : GameState) (p : Piece) (d : ℕ)
    (hg : grounded s {p with y := p.y + (d : ℤ)} = true)
    (hmin : ∀ k : ℕ, k < d → grounded s {p with y := p.y + (k : ℤ)} = false) :
    dropLoop s p = ({p with y := p.y + (d : ℤ)}, d) := by
  induction d generalizing p with
  | zero =>
    have hp : ({p with y := p.y + ((0 : ℕ) : ℤ)} : Piece) = p := by
      cases p
      simp
    rw [hp] at hg
    rw [dropLoop.eq_def, dif_pos hg, hp]
  | succ d ih =>
    have hp0 : ({p with y := p.y + ((0 : ℕ) : ℤ)} : Piece) = p := by
      cases p
      simp
    have h0 : grounded s p = false := by
      have h00 := hmin 0 (Nat.succ_pos d)
      rwa [hp0] at h00
    rw [dropLoop.eq_def, dif_neg (by simp [h0])]
    have hyy : ({({p with y := p.y + 1} : Piece) with
        y := ({p with y := p.y + 1} : Piece).y + (d : ℤ)} : Piece) =
        {p with y := p.y + ((d + 1 : ℕ) : ℤ)} := by
      cases p
      simp only [Piece.mk.injEq, true_and, and_true]
      push_cast
      ring
    have ihe := ih {p with y := p.y + 1} (by rw [hyy]; exact hg) ?_
    · rw [ihe]
      dsimp only
      rw [hyy]
    · intro k hk
      have hyk : ({({p with y := p.y + 1} : Piece) with
          y := ({p with y := p.y + 1} : Piece).y + (k : ℤ)} : Piece) =
          {p with y := p.y + ((k + 1 : ℕ) : ℤ)} := by
        cases p
        simp only [Piece.mk.injEq, true_and, and_true]
        push_cast
        ring
      rw [hyk]
      exact hmin (k + 1) (by omega)

/-- C7: with the hard-drop input (and no movement/rotation inputs), one
`step` increments the tick, resets the DAS timers, moves the active piece
straight down to the first grounded position `d` cells lower, adds exactly
2 points per cell descended, and hands the result to the shared
lock-and-clear procedure (line clears, scoring, level-up and the next
spawn); gravity and soft-drop processing are skipped, so the fractional
gravity accumulator is untouched. -/
theorem c7_hard_drop (s : GameState) (p : Piece) (dt : ℚ) (par : GameParams)
    (sd hold2 : Bool) (d : ℕ)
    (hA : s.active = some p)
    (hg : grounded s {p with y := p.y + (d : ℤ)} = true)
    (hmin : ∀ k : ℕ, k < d → grounded s {p with y := p.y + (k : ℤ)} = false) :
    step s ⟨false, false, false, false, sd, true, hold2, false⟩ dt par =
      lockAndClear
        {dasReset {s with tick := s.tick + 1} with
          active := some {p with y := p.y + (d : ℤ)},
          score := s.score + 2 * (d : ℚ)} par ∧
    (step s ⟨false, false, false, false, sd, true, hold2, false⟩ dt par).fallAccum
      = s.fallAccum := by
  have hstep : step s ⟨false, false, false, false, sd, true, hold2, false⟩ dt par =
      stepCore (dasReset {s with tick := s.tick + 1})
        ⟨false, false, false, false, sd, true, hold2, false⟩ dt par := by
    unfold step
    dsimp only
    have hff : ¬ ((false : Bool) = true) := by simp
    rw [if_neg hff, if_neg hff, handleDasArr_reset {s with tick := s.tick + 1}
      ⟨false, false, false, false, sd, true, hold2, false⟩ dt par p rfl rfl hA]
  have hdrop : dropLoop (dasReset {s with tick := s.tick + 1}) p =
      ({p with y := p.y + (d : ℤ)}, d) :=
    dropLoop_spec _ p d hg hmin
  have hcore : stepCore (dasReset {s with tick := s.tick + 1})
      ⟨false, false, false, false, sd, true, hold2, false⟩ dt par =
      lockAndClear
        {dasReset {s with tick := s.tick + 1} with
          active := some {p with y := p.y + (d : ℤ)},
          score := s.score + 2 * (d : ℚ)} par := by
    unfold stepCore
    dsimp only
    rw [show (dasReset {s with tick := s.tick + 1}).active = some p from hA]
    dsimp only
    rw [hdrop]
    dsimp only
    cases d with
    | zero =>
      rw [if_neg (by norm_num)]
      all_goals congr 1
      all_goals simp [dasReset]
    | succ d2 =>
      rw [if_pos (by exact_mod_cast Nat.succ_pos d2)]
      all_goals congr 1
  refine ⟨hstep.trans hcore, ?_⟩
  rw [hstep, hcore, lockAndClear_fallAccum]
  simp [dasReset]

def c7WPiece : Piece := ⟨.O, 1, 0, 0⟩

def c7WState : GameState :=
  { gameOver := false, tick := 0, boardW := 4, boardH := 7, board := makeBoard 4 7,
    level := 0, lines := 0, score := 0, active := some c7WPiece, hold := none,
    canHold := true, next := [], fallAccum := 5/2, lockTimerMs := 0, clearingRows := none,
    dasLeftMs := 7, dasRightMs := 0, arrLeftMs := 0, arrRightMs := 0, seed := 9 }

theorem c7_witness :
    (step c7WState ⟨false, false, false, false, false, true, false, false⟩ 16 par0).score
        = c7WState.score + 10 ∧
    (step c7WState ⟨false, false, false, false, false, true, false, false⟩ 16 par0).fallAccum
        = c7WState.fallAccum := by
  have h := c7_hard_drop c7WState c7WPiece 16 par0 false false 5 rfl
    (by with_unfolding_all decide) (by with_unfolding_all decide)
  refine ⟨?_, h.2⟩
  rw [h.1]
  with_unfolding_all decide

end IM
